import Mathlib

/-!
Verification of the epgrab DVB EPG grabber (src/eit.rs, src/scan.rs,
src/channel.rs) against its natural-language specification.

Shallow embedding conventions:
* a Rust byte slice `&[u8]` is a `List Nat` whose elements are byte values;
* `data[i]` is `byteAt data i` (all modeled accesses are bounds-checked by
  the surrounding code exactly as in the source);
* a Rust subslice `data[a..b]` is `slice data a b`;
* Rust `String` values produced by the DVB decoders are lists of Unicode
  code points (`List Nat`); strings of the channel file are `List Char`;
* fallible functions return `Except String` as the source returns
  `Result<_, String>`;
* loops whose index advances by a computed positive amount are embedded
  with a fuel argument that the callers instantiate large enough.
-/

namespace Epgrab

/-- Byte access `data[i]`, defaulting to 0 out of bounds. -/
def byteAt (data : List Nat) (i : Nat) : Nat := data.getD i 0

/-- `u16::from_be_bytes([a, b])`. -/
def u16be (a b : Nat) : Nat := a * 256 + b

/-- Rust subslice `data[a..b]`. -/
def slice (data : List Nat) (a b : Nat) : List Nat := (data.drop a).take (b - a)

/-- `bcd_to_u8` from src/eit.rs: `((bcd >> 4) * 10) + (bcd & 0x0F)`
(no u8 overflow is possible: the value is at most 165). -/
def bcd_to_u8 (bcd : Nat) : Nat := (bcd >>> 4) * 10 + (bcd &&& 0x0F)

/-- `decode_start_time` from src/eit.rs: bytes 0-1 are a big-endian MJD,
bytes 2-4 are hours/minutes/seconds in BCD; result in Unix seconds (i64). -/
def decode_start_time (data : List Nat) : Int :=
  let mjd := u16be (byteAt data 0) (byteAt data 1)
  ((mjd : Int) - 40587) * 86400
    + (bcd_to_u8 (byteAt data 2) : Int) * 3600
    + (bcd_to_u8 (byteAt data 3) : Int) * 60
    + (bcd_to_u8 (byteAt data 4) : Int)

/-- `decode_duration` from src/eit.rs: three BCD bytes, result in seconds. -/
def decode_duration (data : List Nat) : Nat :=
  bcd_to_u8 (byteAt data 0) * 3600
    + bcd_to_u8 (byteAt data 1) * 60
    + bcd_to_u8 (byteAt data 2)

/-- BCD encoding of a two-digit number, as written in the claim:
`bcd(x) = (x/10)*16 + x%10`. -/
def bcdEncode (x : Nat) : Nat := (x / 10) * 16 + x % 10

/-- `u16::from_be_bytes` of UTF-16 code-unit pairs, Rust
`data.chunks_exact(2)`: a trailing odd byte is dropped. -/
def pairsBE : List Nat → List Nat
  | a :: b :: rest => u16be a b :: pairsBE rest
  | _ => []

/-- Model of Rust `String::from_utf16_lossy` on a list of 16-bit code
units: surrogate pairs are combined, unpaired surrogates decode to
U+FFFD.  Embedded with fuel; `utf16Lossy` supplies enough fuel. -/
def utf16LossyGo : Nat → List Nat → List Nat
  | 0, _ => []
  | _, [] => []
  | fuel + 1, u :: rest =>
    if u < 0xD800 ∨ 0xE000 ≤ u then u :: utf16LossyGo fuel rest
    else if u < 0xDC00 then
      match rest with
      | v :: rest2 =>
        if 0xDC00 ≤ v ∧ v < 0xE000 then
          (0x10000 + (u - 0xD800) * 1024 + (v - 0xDC00)) :: utf16LossyGo fuel rest2
        else 0xFFFD :: utf16LossyGo fuel (v :: rest2)
      | [] => [0xFFFD]
    else 0xFFFD :: utf16LossyGo fuel rest

def utf16Lossy (units : List Nat) : List Nat := utf16LossyGo units.length units

/-- Continuation byte test for UTF-8. -/
def contByte (c : Nat) : Bool := 0x80 ≤ c && c ≤ 0xBF

/-- Model of Rust `String::from_utf8_lossy` on a list of bytes: valid
sequences decode to their code point, invalid bytes decode to U+FFFD.
Embedded with fuel; `utf8Lossy` supplies enough fuel. -/
def utf8LossyGo : Nat → List Nat → List Nat
  | 0, _ => []
  | _, [] => []
  | fuel + 1, b :: rest =>
    if b < 0x80 then b :: utf8LossyGo fuel rest
    else if b < 0xC2 then 0xFFFD :: utf8LossyGo fuel rest
    else if b < 0xE0 then
      match rest with
      | c :: rest2 =>
        if contByte c then ((b % 32) * 64 + c % 64) :: utf8LossyGo fuel rest2
        else 0xFFFD :: utf8LossyGo fuel (c :: rest2)
      | [] => [0xFFFD]
    else if b < 0xF0 then
      match rest with
      | c :: d :: rest2 =>
        if contByte c && contByte d
            && !(b = 0xE0 && c < 0xA0) && !(b = 0xED && 0xA0 ≤ c) then
          ((b % 16) * 4096 + (c % 64) * 64 + d % 64) :: utf8LossyGo fuel rest2
        else 0xFFFD :: utf8LossyGo fuel (c :: d :: rest2)
      | [c] => if contByte c then [0xFFFD] else [0xFFFD, 0xFFFD]
      | [] => [0xFFFD]
    else if b < 0xF5 then
      match rest with
      | c :: d :: e :: rest2 =>
        if contByte c && contByte d && contByte e
            && !(b = 0xF0 && c < 0x90) && !(b = 0xF4 && 0x90 ≤ c) then
          ((b % 8) * 262144 + (c % 64) * 4096 + (d % 64) * 64 + e % 64)
            :: utf8LossyGo fuel rest2
        else 0xFFFD :: utf8LossyGo fuel (c :: d :: e :: rest2)
      | [c, d] => if contByte c && contByte d then [0xFFFD] else 0xFFFD :: utf8LossyGo fuel [c, d]
      | [c] => if contByte c then [0xFFFD] else [0xFFFD, 0xFFFD]
      | [] => [0xFFFD]
    else 0xFFFD :: utf8LossyGo fuel rest

def utf8Lossy (bytes : List Nat) : List Nat := utf8LossyGo bytes.length bytes

/-- The `retain` closure at the end of `decode_dvb_text` in src/eit.rs:
keep newline; drop C0 controls, DELETE, C1 controls and their Private Use
Area remapping. -/
def keepChar (cp : Nat) : Bool :=
  if cp = 0x0A then true
  else if cp ≤ 0x1F then false
  else if cp = 0x7F then false
  else if 0x80 ≤ cp ∧ cp ≤ 0x9F then false
  else if 0xE080 ≤ cp ∧ cp ≤ 0xE09F then false
  else true

/-- The encoding dispatch of `decode_dvb_text` (src/eit.rs) before the
control-character strip: the first byte selects the encoding. -/
def decode_dvb_text_raw (data : List Nat) : List Nat :=
  match data with
  | [] => []
  | b0 :: _ =>
    if b0 = 0x14 then
      if data.length < 3 then [] else utf16Lossy (pairsBE (data.drop 1))
    else if b0 = 0x15 then utf8Lossy (data.drop 1)
    else if b0 = 0x11 then
      if data.length < 3 then [] else utf16Lossy (pairsBE (data.drop 1))
    else if b0 = 0x10 then
      if 3 < data.length then utf8Lossy (data.drop 3) else []
    else if 0x01 ≤ b0 ∧ b0 ≤ 0x05 then utf8Lossy (data.drop 1)
    else if 0x20 ≤ b0 ∧ b0 ≤ 0xFF then utf8Lossy data
    else []

/-- `decode_dvb_text` from src/eit.rs: decode, then strip control
characters. -/
def decode_dvb_text (data : List Nat) : List Nat :=
  (decode_dvb_text_raw data).filter keepChar

-- Evaluation checks against the unit tests of src/eit.rs.
example : decode_dvb_text [0x15, 0x48, 0x65, 0x6C, 0x6C, 0x6F] = [0x48, 0x65, 0x6C, 0x6C, 0x6F] := by decide
example : decode_dvb_text [0x11, 0x00, 0x41, 0x00, 0x86, 0x00, 0x42, 0x00, 0x87, 0x00, 0x43] = [0x41, 0x42, 0x43] := by decide
example : decode_dvb_text [0x15, 0x41, 0x09, 0x42] = [0x41, 0x42] := by decide
example : decode_dvb_text [0x15, 0x41, 0x0A, 0x42] = [0x41, 0x0A, 0x42] := by decide
example : decode_dvb_text [0x14, 0x00, 0x48, 0x00, 0x69] = [0x48, 0x69] := by decide
example : decode_dvb_text [0x14, 0x00] = [] := by decide
example : decode_dvb_text [0x10, 0x00, 0x01, 0x41, 0x42, 0x43] = [0x41, 0x42, 0x43] := by decide
example : decode_dvb_text [0x10, 0x00, 0x01] = [] := by decide
example : decode_dvb_text [0x06] = [] := by decide
example : decode_start_time [0x9E, 0x8B, 0x00, 0x00, 0x00] = 0 := by decide
example : decode_duration [0x02, 0x45, 0x30] = 2 * 3600 + 45 * 60 + 30 := by decide

/-- Helper for C6: decoding a BCD-encoded two-digit value is the
identity below 100. -/
theorem bcd_round (x : Nat) (hx : x < 100) : bcd_to_u8 (bcdEncode x) = x := by
  revert x hx
  decide

/-- C6: for h in [0,23], m in [0,59], s in [0,59], decoding the three
BCD-encoded bytes with decode_duration yields exactly h*3600 + m*60 + s. -/
theorem c6_bcd_roundtrip (h m s : Nat) (hh : h ≤ 23) (hm : m ≤ 59) (hs : s ≤ 59) :
    decode_duration [bcdEncode h, bcdEncode m, bcdEncode s] = h * 3600 + m * 60 + s := by
  have e : decode_duration [bcdEncode h, bcdEncode m, bcdEncode s]
      = bcd_to_u8 (bcdEncode h) * 3600 + bcd_to_u8 (bcdEncode m) * 60
        + bcd_to_u8 (bcdEncode s) := rfl
  rw [e, bcd_round h (by omega), bcd_round m (by omega), bcd_round s (by omega)]

/-- Witness for C6 at h=23, m=59, s=59. -/
theorem c6_bcd_roundtrip_witness :
    decode_duration [bcdEncode 23, bcdEncode 59, bcdEncode 59] = 23 * 3600 + 59 * 60 + 59 :=
  c6_bcd_roundtrip 23 59 59 (by decide) (by decide) (by decide)

/-- C7 counterexample: on the bytes [0xD7, 0x52, 0x14, 0x30, 0x00] the
code does not return 1256394600 (0xD752 is MJD 55122, and
(55122-40587)*86400 + 14*3600 + 30*60 = 1255876200). -/
theorem c7_counterexample :
    decode_start_time [0xD7, 0x52, 0x14, 0x30, 0x00] ≠ 1256394600 := by decide

/-- C7 amended: decode_start_time applied to [0xD7, 0x52, 0x14, 0x30, 0x00]
(MJD 55122, 14:30:00) returns (55122-40587)*86400 + 14*3600 + 30*60
= 1255876200. -/
theorem c7_mjd_decode :
    decode_start_time [0xD7, 0x52, 0x14, 0x30, 0x00] = 1255876200
      ∧ (1255876200 : Int) = (55122 - 40587) * 86400 + 14 * 3600 + 30 * 60 := by
  constructor
  · decide
  · decide

/-- C10: decode_dvb_text applied to the empty byte slice returns the
empty string. -/
theorem c10_empty_input : decode_dvb_text [] = [] := rfl

/-- C5: for every input, the decoded string contains no code point in
U+0000-U+0009, U+000B-U+001F, U+007F, U+0080-U+009F or U+E080-U+E09F,
and the newline U+000A is preserved whenever the decoded (pre-strip)
text contains it. -/
theorem c5_control_strip (data : List Nat) :
    (∀ cp ∈ decode_dvb_text data,
        ¬(cp ≤ 0x09 ∨ (0x0B ≤ cp ∧ cp ≤ 0x1F) ∨ cp = 0x7F
          ∨ (0x80 ≤ cp ∧ cp ≤ 0x9F) ∨ (0xE080 ≤ cp ∧ cp ≤ 0xE09F)))
      ∧ (0x0A ∈ decode_dvb_text_raw data → 0x0A ∈ decode_dvb_text data) := by
  constructor
  · intro cp hcp
    have hkeep : keepChar cp = true := (List.mem_filter.mp hcp).2
    simp only [keepChar] at hkeep
    split_ifs at hkeep with h1 h2 h3 h4 h5 <;> omega
  · intro hmem
    refine List.mem_filter.mpr ⟨hmem, ?_⟩
    decide

/-- Witness for C5 on the input [0x15, 0x41, 0x0A, 0x86]: 0x41 is in the
output and not a control character, and the newline survives. -/
theorem c5_control_strip_witness :
    (0x41 ∈ decode_dvb_text [0x15, 0x41, 0x0A, 0x86]
        ∧ ¬((0x41 : Nat) ≤ 0x09 ∨ ((0x0B : Nat) ≤ 0x41 ∧ (0x41 : Nat) ≤ 0x1F) ∨ (0x41 : Nat) = 0x7F
          ∨ ((0x80 : Nat) ≤ 0x41 ∧ (0x41 : Nat) ≤ 0x9F) ∨ ((0xE080 : Nat) ≤ 0x41 ∧ (0x41 : Nat) ≤ 0xE09F)))
      ∧ 0x0A ∈ decode_dvb_text [0x15, 0x41, 0x0A, 0x86] :=
  ⟨⟨by decide, (c5_control_strip [0x15, 0x41, 0x0A, 0x86]).1 0x41 (by decide)⟩,
    (c5_control_strip [0x15, 0x41, 0x0A, 0x86]).2 (by decide)⟩

/-- `parse_short_event_descriptor` from src/eit.rs: 3-byte language code,
length-prefixed event name, length-prefixed text. -/
def parse_short_event_descriptor (data : List Nat) : List Nat × List Nat × List Nat :=
  if data.length < 5 then ([], [], [])
  else
    let language := utf8Lossy (data.take 3)
    let name_len := byteAt data 3
    if data.length < 4 + name_len + 1 then (language, [], [])
    else
      let event_name := decode_dvb_text (slice data 4 (4 + name_len))
      let text_offset := 4 + name_len
      let text_len := byteAt data text_offset
      let description :=
        if text_offset + 1 + text_len ≤ data.length then
          decode_dvb_text (slice data (text_offset + 1) (text_offset + 1 + text_len))
        else []
      (language, event_name, description)

/-- `EitEvent` from src/eit.rs. -/
structure EitEvent where
  service_id : Nat
  event_id : Nat
  start_time : Int
  duration : Nat
  running_status : Nat
  event_name : List Nat
  description : List Nat
  language : List Nat
deriving DecidableEq, Repr

/-- The descriptor walk inside `parse_eit_event` (src/eit.rs): scan
tag/length-prefixed descriptors, remembering the fields of the last
short-event descriptor (tag 0x4D).  `pos` advances by at least 2 per
step, so fuel `desc_data.length + 1` never runs out. -/
def descLoop : Nat → List Nat → Nat → (List Nat × List Nat × List Nat) →
    (List Nat × List Nat × List Nat)
  | 0, _, _, acc => acc
  | fuel + 1, desc_data, pos, acc =>
    if pos + 2 ≤ desc_data.length then
      let tag := byteAt desc_data pos
      let len := byteAt desc_data (pos + 1)
      if desc_data.length < pos + 2 + len then acc
      else
        let acc2 := if tag = 0x4D then
            parse_short_event_descriptor (slice desc_data (pos + 2) (pos + 2 + len))
          else acc
        descLoop fuel desc_data (pos + 2 + len) acc2
    else acc

/-- `parse_eit_event` from src/eit.rs: returns the parsed event and the
number of bytes consumed, or an error. -/
def parse_eit_event (data : List Nat) (service_id : Nat) :
    Except String (EitEvent × Nat) :=
  if data.length < 12 then .error "Event data too short"
  else
    let event_id := u16be (byteAt data 0) (byteAt data 1)
    let start_time := decode_start_time (slice data 2 7)
    let duration := decode_duration (slice data 7 10)
    let running_status := (byteAt data 10 >>> 5) &&& 0x07
    let descriptors_length := ((byteAt data 10 &&& 0x0F) <<< 8) ||| byteAt data 11
    let total_len := 12 + descriptors_length
    if data.length < total_len then .error "Event data truncated"
    else if 86400 < duration ∨ start_time < 0 then
      .error "Event has unreasonable duration or start time"
    else
      let desc_data := slice data 12 (12 + descriptors_length)
      let fields := descLoop (desc_data.length + 1) desc_data 0 ([], [], [])
      .ok (⟨service_id, event_id, start_time, duration, running_status,
            fields.2.1, fields.2.2, fields.1⟩, total_len)

/-- The event loop of `parse_eit_section` (src/eit.rs): parse events one
after the other, stopping at `events_end` or at the first event that
fails to parse.  Each successful parse consumes at least 12 bytes, so
fuel `events_end + 1` never runs out. -/
def eventLoop : Nat → List Nat → Nat → Nat → Nat → List EitEvent
  | 0, _, _, _, _ => []
  | fuel + 1, buf, service_id, events_end, pos =>
    if pos < events_end then
      match parse_eit_event (slice buf pos events_end) service_id with
      | .ok (event, consumed) =>
          event :: eventLoop fuel buf service_id events_end (pos + consumed)
      | .error _ => []
    else []

/-- `section_end` as computed by `parse_eit_section`: 3 plus the low 12
bits of bytes 1-2. -/
def eitSectionEnd (buf : List Nat) : Nat :=
  3 + (((byteAt buf 1 &&& 0x0F) <<< 8) ||| byteAt buf 2)

/-- `service_id` of an EIT section: big-endian bytes 3-4. -/
def eitServiceId (buf : List Nat) : Nat := u16be (byteAt buf 3) (byteAt buf 4)

/-- `parse_eit_section` from src/eit.rs. -/
def parse_eit_section (buf : List Nat) : Except String (Nat × List EitEvent) :=
  if buf.length < 18 then .error "Section too short"
  else if buf.length < eitSectionEnd buf then .error "Section truncated"
  else if byteAt buf 0 = 0x4E ∧ 1 < byteAt buf 7 then
    .error "Corrupted section: table 0x4E has bad last_section_number"
  else
    .ok (eitServiceId buf,
      eventLoop (eitSectionEnd buf - 4 + 1) buf (eitServiceId buf)
        (eitSectionEnd buf - 4) 14)

/-- Convenience: did an `Except` succeed. -/
def isOkE {α : Type} (x : Except String α) : Bool :=
  match x with
  | .ok _ => true
  | .error _ => false

instance {ε α : Type} [DecidableEq ε] [DecidableEq α] : DecidableEq (Except ε α) := by
  intro x y
  cases x <;> cases y
  case error.error a b =>
    exact if h : a = b then .isTrue (by rw [h]) else .isFalse (by intro hh; cases hh; exact h rfl)
  case error.ok a b => exact .isFalse (by intro hh; cases hh)
  case ok.error a b => exact .isFalse (by intro hh; cases hh)
  case ok.ok a b =>
    exact if h : a = b then .isTrue (by rw [h]) else .isFalse (by intro hh; cases hh; exact h rfl)

-- Evaluation checks against the unit tests of src/eit.rs.
example :
    parse_short_event_descriptor
      [0x65, 0x6E, 0x67, 5, 0x48, 0x65, 0x6C, 0x6C, 0x6F, 5, 0x57, 0x6F, 0x72, 0x6C, 0x64]
      = ([0x65, 0x6E, 0x67], [0x48, 0x65, 0x6C, 0x6C, 0x6F],
          [0x57, 0x6F, 0x72, 0x6C, 0x64]) := by decide
example : parse_short_event_descriptor [0x65, 0x6E, 0x67, 0] = ([], [], []) := by decide
example : parse_short_event_descriptor [0x7A, 0x68, 0x6F, 0, 0]
    = ([0x7A, 0x68, 0x6F], [], []) := by decide
example :
    parse_eit_event [0x00, 0x01, 0xC9, 0x58, 0x12, 0x00, 0x00, 0x01, 0x30, 0x00, 0x00, 0x00] 100
      = .ok (⟨100, 1, (51544 - 40587) * 86400 + 12 * 3600, 5400, 0, [], [], []⟩, 12) := by decide
example :
    isOkE (parse_eit_event [0, 0, 0, 0, 0, 0, 0, 0, 0, 0, 0] 1) = false := by decide
example :
    isOkE (parse_eit_event
      [0x00, 0x01, 0xC9, 0x58, 0x12, 0x00, 0x00, 0x25, 0x00, 0x00, 0x00, 0x00] 1) = false := by
  decide
example : isOkE (parse_eit_section (List.replicate 17 0)) = false := by decide
example :
    parse_eit_section
      [0x4E, 0xF0, 15, 0x00, 0x01, 0xC1, 0x00, 0x00, 0, 0, 0, 0, 0, 0, 0, 0, 0, 0]
      = .ok (1, []) := by decide
example :
    isOkE (parse_eit_section
      [0x4E, 0xF0, 15, 0x00, 0x01, 0x00, 0x00, 5, 0, 0, 0, 0, 0, 0, 0, 0, 0, 0]) = false := by
  decide

/-- C9: parse_short_event_descriptor is total: below 5 bytes it returns
three empty strings; at 5 bytes or more it always returns the decoded
3-byte language field, and substitutes empty name/description when the
declared name length (plus the text-length byte) or the declared text
length overflows the buffer. -/
theorem c9_short_event_total :
    (∀ data : List Nat, data.length < 5 →
        parse_short_event_descriptor data = ([], [], []))
      ∧ (∀ data : List Nat, 5 ≤ data.length →
          (parse_short_event_descriptor data).1 = utf8Lossy (data.take 3))
      ∧ (∀ data : List Nat, 5 ≤ data.length →
          data.length < 4 + byteAt data 3 + 1 →
          parse_short_event_descriptor data = (utf8Lossy (data.take 3), [], []))
      ∧ (∀ data : List Nat, 5 ≤ data.length →
          4 + byteAt data 3 + 1 ≤ data.length →
          data.length < 4 + byteAt data 3 + 1 + byteAt data (4 + byteAt data 3) →
          (parse_short_event_descriptor data).2.2 = []) := by
  refine ⟨?_, ?_, ?_, ?_⟩
  · intro data hlen
    simp [parse_short_event_descriptor, hlen]
  · intro data hlen
    rw [parse_short_event_descriptor, if_neg (by omega)]
    dsimp only
    split <;> rfl
  · intro data hlen hover
    rw [parse_short_event_descriptor, if_neg (by omega)]
    dsimp only
    rw [if_pos hover]
  · intro data hlen hfit hover
    rw [parse_short_event_descriptor, if_neg (by omega)]
    dsimp only
    rw [if_neg (by omega)]
    dsimp only
    rw [if_neg (by omega)]

/-- Witness for C9: each conjunct applied at a concrete input. -/
theorem c9_short_event_total_witness :
    parse_short_event_descriptor [0, 0] = ([], [], [])
      ∧ (parse_short_event_descriptor [0x65, 0x6E, 0x67, 9, 0x41]).1
          = utf8Lossy [0x65, 0x6E, 0x67]
      ∧ parse_short_event_descriptor [0x65, 0x6E, 0x67, 9, 0x41]
          = (utf8Lossy [0x65, 0x6E, 0x67], [], [])
      ∧ (parse_short_event_descriptor [0x65, 0x6E, 0x67, 1, 0x41, 200]).2.2 = [] :=
  ⟨c9_short_event_total.1 [0, 0] (by decide),
    by
      have h := c9_short_event_total.2.1 [0x65, 0x6E, 0x67, 9, 0x41] (by decide)
      simpa using h,
    by
      have h := c9_short_event_total.2.2.1 [0x65, 0x6E, 0x67, 9, 0x41] (by decide) (by decide)
      simpa using h,
    c9_short_event_total.2.2.2 [0x65, 0x6E, 0x67, 1, 0x41, 200] (by decide) (by decide)
      (by decide)⟩

/-- C4: every event accepted by parse_eit_event has duration at most
86400 (durations are natural numbers, hence nonnegative) and a
nonnegative start_time. -/
theorem c4_accepted_event_sane (data : List Nat) (sid : Nat) (e : EitEvent) (c : Nat)
    (h : parse_eit_event data sid = .ok (e, c)) :
    e.duration ≤ 86400 ∧ 0 ≤ e.start_time := by
  rw [parse_eit_event] at h
  by_cases h1 : data.length < 12
  · rw [if_pos h1] at h
    exact Except.noConfusion h
  · rw [if_neg h1] at h
    dsimp only at h
    by_cases h2 : data.length < 12 + ((byteAt data 10 &&& 0x0F) <<< 8 ||| byteAt data 11)
    · rw [if_pos h2] at h
      exact Except.noConfusion h
    · rw [if_neg h2] at h
      by_cases h3 : 86400 < decode_duration (slice data 7 10)
          ∨ decode_start_time (slice data 2 7) < 0
      · rw [if_pos h3] at h
        exact Except.noConfusion h
      · rw [if_neg h3] at h
        simp only [Except.ok.injEq, Prod.mk.injEq] at h
        obtain ⟨he, _⟩ := h
        subst he
        simp only [not_or, not_lt] at h3
        exact ⟨h3.1, h3.2⟩

/-- Witness for C4 on the minimal event of the unit tests. -/
theorem c4_accepted_event_sane_witness :
    (⟨100, 1, (51544 - 40587) * 86400 + 12 * 3600, 5400, 0, [], [], []⟩ : EitEvent).duration ≤ 86400
      ∧ (0 : Int) ≤ (⟨100, 1, (51544 - 40587) * 86400 + 12 * 3600, 5400, 0, [], [], []⟩ : EitEvent).start_time :=
  c4_accepted_event_sane
    [0x00, 0x01, 0xC9, 0x58, 0x12, 0x00, 0x00, 0x01, 0x30, 0x00, 0x00, 0x00] 100
    ⟨100, 1, (51544 - 40587) * 86400 + 12 * 3600, 5400, 0, [], [], []⟩ 12 (by decide)

/-- A section whose first event (at offset 14) has a 25-hour BCD duration
(90000 s > 86400) and whose second event (at offset 26) is well-formed. -/
def c2buf : List Nat :=
  [0x4E, 0x00, 39, 0x00, 0x01, 0xC1, 0x00, 0x00, 0, 0, 0, 0, 0, 0,
   0x00, 0x01, 0x9E, 0x8B, 0x00, 0x00, 0x00, 0x25, 0x00, 0x00, 0x00, 0x00,
   0x00, 0x02, 0x9E, 0x8B, 0x00, 0x00, 0x00, 0x01, 0x00, 0x00, 0x00, 0x00,
   0, 0, 0, 0]

/-- C2 counterexample: in c2buf the second event parses fine on its own,
yet parse_eit_section returns no events at all, because the loop stops at
the first event's unreasonable duration instead of continuing with the
next event of the same section. -/
theorem c2_counterexample :
    isOkE (parse_eit_event (slice c2buf 26 38) 1) = true
      ∧ parse_eit_section c2buf = .ok (1, []) := by
  constructor
  · decide
  · decide

/-- C2 amended: any event that parse_eit_event rejects - an unreasonable
duration or start_time just like a descriptor length overflowing the
section - stops parsing further events in that section, and the events
already parsed are still returned: whenever the three header checks
pass, parse_eit_section returns Ok with the events collected up to the
first failure. -/
theorem c2_event_error_stops_section :
    (∀ (fuel : Nat) (buf : List Nat) (sid events_end pos : Nat),
        pos < events_end →
        isOkE (parse_eit_event (slice buf pos events_end) sid) = false →
        eventLoop (fuel + 1) buf sid events_end pos = [])
      ∧ (∀ buf : List Nat, 18 ≤ buf.length → eitSectionEnd buf ≤ buf.length →
          ¬(byteAt buf 0 = 0x4E ∧ 1 < byteAt buf 7) →
          parse_eit_section buf
            = .ok (eitServiceId buf,
                eventLoop (eitSectionEnd buf - 4 + 1) buf (eitServiceId buf)
                  (eitSectionEnd buf - 4) 14)) := by
  constructor
  · intro fuel buf sid events_end pos hpos herr
    rw [eventLoop, if_pos hpos]
    cases hp : parse_eit_event (slice buf pos events_end) sid with
    | ok val => rw [hp] at herr; simp [isOkE] at herr
    | error e => rfl
  · intro buf h18 hend hsan
    rw [parse_eit_section, if_neg (by omega), if_neg (by omega), if_neg hsan]

/-- Witness for C2 amended, on c2buf: the loop stops at the bad first
event, and the section parser still returns Ok. -/
theorem c2_event_error_stops_section_witness :
    eventLoop 1 c2buf 1 38 14 = []
      ∧ parse_eit_section c2buf
          = .ok (eitServiceId c2buf,
              eventLoop (eitSectionEnd c2buf - 4 + 1) c2buf (eitServiceId c2buf)
                (eitSectionEnd c2buf - 4) 14) :=
  ⟨c2_event_error_stops_section.1 0 c2buf 1 38 14 (by decide) (by decide),
    c2_event_error_stops_section.2 c2buf (by decide) (by decide) (by decide)⟩

/-- Acceptance test of `read_all_sections` (src/scan.rs): a read is kept
when it has at least 8 bytes and its first byte equals the requested
table_id. -/
def section_accept (tid : Nat) (buf : List Nat) : Bool :=
  decide (8 ≤ buf.length ∧ byteAt buf 0 = tid)

/-- The accepted reads, in arrival order. -/
def acceptedSections (tid : Nat) (reads : List (List Nat)) : List (List Nat) :=
  reads.filter (section_accept tid)

/-- Modelled from the spec sentence "keep the first occurrence of each
section_number in an insertion-keyed map": fold the accepted sections
into an association list keyed by byte 6, keeping the first buffer seen
for each key.  Used as the specification side of C1. -/
def firstOccSec : List (List Nat) → List (Nat × List Nat) → List (Nat × List Nat)
  | [], acc => acc
  | b :: bs, acc =>
    if acc.any fun p => p.1 == byteAt b 6 then firstOccSec bs acc
    else firstOccSec bs (acc ++ [(byteAt b 6, b)])

/-- The collection loop of `read_all_sections` (src/scan.rs): drop reads
shorter than 8 bytes or with the wrong table_id; record the first buffer
per section_number (byte 6); stop as soon as the number of recorded
sections exceeds the current read's last_section_number (byte 7). -/
def read_all_sections_go (tid : Nat) :
    List (List Nat) → List (Nat × List Nat) → List (Nat × List Nat)
  | [], acc => acc
  | buf :: rest, acc =>
    if buf.length < 8 then read_all_sections_go tid rest acc
    else if byteAt buf 0 ≠ tid then read_all_sections_go tid rest acc
    else
      let acc2 := if acc.any fun p => p.1 == byteAt buf 6 then acc
        else acc ++ [(byteAt buf 6, buf)]
      if byteAt buf 7 < acc2.length then acc2
      else read_all_sections_go tid rest acc2

/-- Key order used to sort the collected sections. -/
def keyLE (p q : Nat × List Nat) : Prop := p.1 ≤ q.1

instance : DecidableRel keyLE := fun p q => inferInstanceAs (Decidable (p.1 ≤ q.1))

instance : IsTotal (Nat × List Nat) keyLE := ⟨fun a b => Nat.le_total a.1 b.1⟩

instance : IsTrans (Nat × List Nat) keyLE := ⟨fun _ _ _ h1 h2 => Nat.le_trans h1 h2⟩

/-- `read_all_sections` from src/scan.rs, as a function of the sequence
of demux reads: collect, fail when nothing was collected, otherwise
return the buffers sorted by section_number. -/
def read_all_sections (tid : Nat) (reads : List (List Nat)) :
    Except String (List (List Nat)) :=
  let sections := read_all_sections_go tid reads []
  if sections.isEmpty then .error "Timeout reading sections"
  else .ok ((sections.insertionSort keyLE).map Prod.snd)

/-- The collection loop consumes a prefix of the reads; on that prefix it
computes exactly the first-occurrence map of the accepted sections, its
size never exceeds L+1 when every accepted read reports
last_section_number L, it stops (leaving reads unconsumed) only with
exactly L+1 sections, and no shorter prefix already had L+1 sections. -/
theorem rasGo_spec (tid L : Nat) (reads : List (List Nat)) :
    ∀ acc : List (Nat × List Nat),
      (∀ b ∈ reads, section_accept tid b = true → byteAt b 7 = L) →
      acc.length ≤ L →
      ∃ n, n ≤ reads.length
        ∧ read_all_sections_go tid reads acc
            = firstOccSec (acceptedSections tid (reads.take n)) acc
        ∧ (read_all_sections_go tid reads acc).length ≤ L + 1
        ∧ (n < reads.length → (read_all_sections_go tid reads acc).length = L + 1)
        ∧ ∀ m, m < n → (firstOccSec (acceptedSections tid (reads.take m)) acc).length ≤ L := by
  induction reads with
  | nil =>
    intro acc _ haccL
    refine ⟨0, Nat.le_refl 0, ?_, ?_, ?_, ?_⟩
    · simp [read_all_sections_go, acceptedSections, firstOccSec]
    · simpa [read_all_sections_go] using Nat.le_succ_of_le haccL
    · intro h; exact absurd h (Nat.lt_irrefl 0)
    · intro m hm; exact absurd hm (Nat.not_lt_zero m)
  | cons buf rest ih =>
    intro acc hL haccL
    have hLrest : ∀ b ∈ rest, section_accept tid b = true → byteAt b 7 = L :=
      fun b hb => hL b (List.mem_cons_of_mem _ hb)
    by_cases h8 : buf.length < 8
    · have hfalse : section_accept tid buf = false := by
        simp only [section_accept, decide_eq_false_iff_not]
        intro hc
        omega
      obtain ⟨n, hn, hgo, hlen, hstop, hmin⟩ := ih acc hLrest haccL
      have hstep : read_all_sections_go tid (buf :: rest) acc
          = read_all_sections_go tid rest acc := by
        simp [read_all_sections_go, h8]
      refine ⟨n + 1, Nat.succ_le_succ hn, ?_, ?_, ?_, ?_⟩
      · rw [hstep, List.take_succ_cons]
        simpa [acceptedSections, List.filter_cons, hfalse] using hgo
      · rw [hstep]; exact hlen
      · intro h
        rw [hstep]
        exact hstop (by simpa using Nat.lt_of_succ_lt_succ h)
      · intro m hm
        cases m with
        | zero => simpa [acceptedSections, firstOccSec] using haccL
        | succ m' =>
          rw [List.take_succ_cons]
          simpa [acceptedSections, List.filter_cons, hfalse]
            using hmin m' (Nat.lt_of_succ_lt_succ hm)
    · by_cases h0 : byteAt buf 0 ≠ tid
      · have hfalse : section_accept tid buf = false := by
          simp only [section_accept, decide_eq_false_iff_not]
          intro hc
          exact h0 hc.2
        obtain ⟨n, hn, hgo, hlen, hstop, hmin⟩ := ih acc hLrest haccL
        have hstep : read_all_sections_go tid (buf :: rest) acc
            = read_all_sections_go tid rest acc := by
          simp [read_all_sections_go, h8, h0]
        refine ⟨n + 1, Nat.succ_le_succ hn, ?_, ?_, ?_, ?_⟩
        · rw [hstep, List.take_succ_cons]
          simpa [acceptedSections, List.filter_cons, hfalse] using hgo
        · rw [hstep]; exact hlen
        · intro h
          rw [hstep]
          exact hstop (by simpa using Nat.lt_of_succ_lt_succ h)
        · intro m hm
          cases m with
          | zero => simpa [acceptedSections, firstOccSec] using haccL
          | succ m' =>
            rw [List.take_succ_cons]
            simpa [acceptedSections, List.filter_cons, hfalse]
              using hmin m' (Nat.lt_of_succ_lt_succ hm)
      · have heq : byteAt buf 0 = tid := not_not.mp h0
        have htrue : section_accept tid buf = true := by
          simp only [section_accept, decide_eq_true_eq]
          exact ⟨by omega, heq⟩
        have hlsn : byteAt buf 7 = L := hL buf (List.mem_cons_self buf rest) htrue
        by_cases hdup : (acc.any fun p => p.1 == byteAt buf 6) = true
        · have hstep : read_all_sections_go tid (buf :: rest) acc
              = read_all_sections_go tid rest acc := by
            simp only [read_all_sections_go, if_neg h8, if_neg h0]
            rw [if_pos hdup, hlsn, if_neg (by omega)]
          obtain ⟨n, hn, hgo, hlen, hstop, hmin⟩ := ih acc hLrest haccL
          refine ⟨n + 1, Nat.succ_le_succ hn, ?_, ?_, ?_, ?_⟩
          · rw [hstep, List.take_succ_cons]
            simp only [acceptedSections, List.filter_cons, htrue, if_pos]
            rw [firstOccSec, if_pos hdup]
            exact hgo
          · rw [hstep]; exact hlen
          · intro h
            rw [hstep]
            exact hstop (by simpa using Nat.lt_of_succ_lt_succ h)
          · intro m hm
            cases m with
            | zero => simpa [acceptedSections, firstOccSec] using haccL
            | succ m' =>
              rw [List.take_succ_cons]
              simp only [acceptedSections, List.filter_cons, htrue, if_pos]
              rw [firstOccSec, if_pos hdup]
              exact hmin m' (Nat.lt_of_succ_lt_succ hm)
        · have hacc2len : (acc ++ [(byteAt buf 6, buf)]).length = acc.length + 1 := by
            simp
          by_cases hfull : acc.length = L
          · have hstep : read_all_sections_go tid (buf :: rest) acc
                = acc ++ [(byteAt buf 6, buf)] := by
              simp only [read_all_sections_go, if_neg h8, if_neg h0]
              rw [if_neg hdup, hlsn, if_pos (by rw [hacc2len]; omega)]
            refine ⟨1, by simp, ?_, ?_, ?_, ?_⟩
            · rw [hstep, List.take_succ_cons, List.take_zero]
              simp only [acceptedSections, List.filter_cons, htrue, if_pos, List.filter_nil]
              rw [firstOccSec, if_neg hdup, firstOccSec]
            · rw [hstep, hacc2len]; omega
            · intro _
              rw [hstep, hacc2len, hfull]
            · intro m hm
              have : m = 0 := by omega
              subst this
              simpa [acceptedSections, firstOccSec] using haccL
          · have hacc2L : (acc ++ [(byteAt buf 6, buf)]).length ≤ L := by
              rw [hacc2len]; omega
            have hstep : read_all_sections_go tid (buf :: rest) acc
                = read_all_sections_go tid rest (acc ++ [(byteAt buf 6, buf)]) := by
              simp only [read_all_sections_go, if_neg h8, if_neg h0]
              rw [if_neg hdup, hlsn, if_neg (by rw [hacc2len]; omega)]
            obtain ⟨n, hn, hgo, hlen, hstop, hmin⟩ :=
              ih (acc ++ [(byteAt buf 6, buf)]) hLrest hacc2L
            refine ⟨n + 1, Nat.succ_le_succ hn, ?_, ?_, ?_, ?_⟩
            · rw [hstep, List.take_succ_cons]
              simp only [acceptedSections, List.filter_cons, htrue, if_pos]
              rw [firstOccSec, if_neg hdup]
              exact hgo
            · rw [hstep]; exact hlen
            · intro h
              rw [hstep]
              exact hstop (by simpa using Nat.lt_of_succ_lt_succ h)
            · intro m hm
              cases m with
              | zero => simpa [acceptedSections, firstOccSec] using haccL
              | succ m' =>
                rw [List.take_succ_cons]
                simp only [acceptedSections, List.filter_cons, htrue, if_pos]
                rw [firstOccSec, if_neg hdup]
                exact hmin m' (Nat.lt_of_succ_lt_succ hm)

/-- Invariants of the collection loop: every stored pair's key is byte 6
of its buffer, and the keys are distinct. -/
theorem rasGo_inv (tid : Nat) (reads : List (List Nat)) :
    ∀ acc : List (Nat × List Nat),
      (∀ p ∈ acc, byteAt p.2 6 = p.1) →
      (acc.map Prod.fst).Nodup →
      (∀ p ∈ read_all_sections_go tid reads acc, byteAt p.2 6 = p.1)
        ∧ ((read_all_sections_go tid reads acc).map Prod.fst).Nodup := by
  induction reads with
  | nil =>
    intro acc hkey hnd
    exact ⟨by simpa [read_all_sections_go] using hkey,
      by simpa [read_all_sections_go] using hnd⟩
  | cons buf rest ih =>
    intro acc hkey hnd
    by_cases h8 : buf.length < 8
    · rw [show read_all_sections_go tid (buf :: rest) acc
          = read_all_sections_go tid rest acc by simp [read_all_sections_go, h8]]
      exact ih acc hkey hnd
    · by_cases h0 : byteAt buf 0 ≠ tid
      · rw [show read_all_sections_go tid (buf :: rest) acc
            = read_all_sections_go tid rest acc by simp [read_all_sections_go, h8, h0]]
        exact ih acc hkey hnd
      · by_cases hdup : (acc.any fun p => p.1 == byteAt buf 6) = true
        · have hstep : read_all_sections_go tid (buf :: rest) acc
              = if byteAt buf 7 < acc.length then acc
                else read_all_sections_go tid rest acc := by
            simp only [read_all_sections_go, if_neg h8, if_neg h0]
            rw [if_pos hdup]
          rw [hstep]
          split
          · exact ⟨hkey, hnd⟩
          · exact ih acc hkey hnd
        · have hnotin : byteAt buf 6 ∉ acc.map Prod.fst := by
            intro hmem
            obtain ⟨p, hp, hpk⟩ := List.mem_map.mp hmem
            have : ∃ p ∈ acc, (p.1 == byteAt buf 6) = true :=
              ⟨p, hp, by simp [hpk]⟩
            exact hdup (List.any_eq_true.mpr this)
          have hkey2 : ∀ p ∈ acc ++ [(byteAt buf 6, buf)], byteAt p.2 6 = p.1 := by
            intro p hp
            rcases List.mem_append.mp hp with h | h
            · exact hkey p h
            · rcases List.mem_singleton.mp h with rfl
              rfl
          have hnd2 : ((acc ++ [(byteAt buf 6, buf)]).map Prod.fst).Nodup := by
            rw [List.map_append]
            refine List.nodup_append.mpr ⟨hnd, List.nodup_singleton _, ?_⟩
            intro a ha hb
            simp only [List.map_cons, List.map_nil, List.mem_singleton] at hb
            subst hb
            exact hnotin ha
          have hstep : read_all_sections_go tid (buf :: rest) acc
              = if byteAt buf 7 < (acc ++ [(byteAt buf 6, buf)]).length
                then acc ++ [(byteAt buf 6, buf)]
                else read_all_sections_go tid rest (acc ++ [(byteAt buf 6, buf)]) := by
            simp only [read_all_sections_go, if_neg h8, if_neg h0]
            rw [if_neg hdup]
          rw [hstep]
          split
          · exact ⟨hkey2, hnd2⟩
          · exact ih _ hkey2 hnd2

/-- C1: when every accepted read reports last_section_number L, the
collection loop of read_all_sections consumes a prefix of the reads on
which it computes the first-occurrence-per-section_number map, stops as
soon as L+1 distinct section_numbers have been recorded (it never stores
more, any early stop has exactly L+1 entries, and no shorter prefix had
L+1), and the buffer list returned by read_all_sections is sorted by
strictly ascending section_number (byte 6). -/
theorem c1_read_all_sections (tid L : Nat) (reads : List (List Nat))
    (hL : ∀ b ∈ reads, section_accept tid b = true → byteAt b 7 = L) :
    (∃ n, n ≤ reads.length
      ∧ read_all_sections_go tid reads []
          = firstOccSec (acceptedSections tid (reads.take n)) []
      ∧ (read_all_sections_go tid reads []).length ≤ L + 1
      ∧ (n < reads.length → (read_all_sections_go tid reads []).length = L + 1)
      ∧ ∀ m, m < n → (firstOccSec (acceptedSections tid (reads.take m)) []).length ≤ L)
    ∧ ∀ out, read_all_sections tid reads = .ok out →
        out.Pairwise fun a b => byteAt a 6 < byteAt b 6 := by
  constructor
  · exact rasGo_spec tid L reads [] hL (Nat.zero_le L)
  · intro out hout
    rw [read_all_sections] at hout
    set sections := read_all_sections_go tid reads [] with hsec
    by_cases hemp : sections.isEmpty
    · rw [if_pos hemp] at hout
      exact Except.noConfusion hout
    · rw [if_neg hemp] at hout
      cases hout
      obtain ⟨hkey, hnd⟩ := rasGo_inv tid reads [] (by simp) (by simp)
      have hperm : List.Perm (sections.insertionSort keyLE) sections :=
        List.perm_insertionSort keyLE sections
      have hkey2 : ∀ p ∈ sections.insertionSort keyLE, byteAt p.2 6 = p.1 :=
        fun p hp => hkey p (hperm.mem_iff.mp hp)
      have hnd2 : ((sections.insertionSort keyLE).map Prod.fst).Nodup :=
        (hperm.map Prod.fst).nodup_iff.mpr hnd
      have hne : (sections.insertionSort keyLE).Pairwise fun p q => p.1 ≠ q.1 :=
        List.pairwise_map.mp hnd2
      have hsorted : (sections.insertionSort keyLE).Pairwise keyLE :=
        List.sorted_insertionSort keyLE sections
      have hlt : (sections.insertionSort keyLE).Pairwise fun p q => p.1 < q.1 :=
        (hsorted.and hne).imp fun h => Nat.lt_of_le_of_ne h.1 h.2
      have hfin : (sections.insertionSort keyLE).Pairwise
          fun p q => byteAt p.2 6 < byteAt q.2 6 :=
        hlt.imp_of_mem fun ha hb h => by
          rw [hkey2 _ ha, hkey2 _ hb]; exact h
      exact List.pairwise_map.mpr hfin

/-- Witness for C1: tid 0, L 1, two accepted sections arriving out of
order followed by an ignored read; the loop stops after two distinct
section numbers and the output is sorted. -/
theorem c1_read_all_sections_witness :
    (∀ b ∈ [[0, 0, 0, 0, 0, 0, 1, 1], [0, 0, 0, 0, 0, 0, 0, 1], [9, 9, 9, 9, 9, 9, 9, 9]],
        section_accept 0 b = true → byteAt b 7 = 1)
      ∧ ((∃ n, n ≤ 3
          ∧ read_all_sections_go 0 [[0, 0, 0, 0, 0, 0, 1, 1], [0, 0, 0, 0, 0, 0, 0, 1], [9, 9, 9, 9, 9, 9, 9, 9]] []
              = firstOccSec (acceptedSections 0 (List.take n [[0, 0, 0, 0, 0, 0, 1, 1], [0, 0, 0, 0, 0, 0, 0, 1], [9, 9, 9, 9, 9, 9, 9, 9]])) []
          ∧ (read_all_sections_go 0 [[0, 0, 0, 0, 0, 0, 1, 1], [0, 0, 0, 0, 0, 0, 0, 1], [9, 9, 9, 9, 9, 9, 9, 9]] []).length ≤ 2
          ∧ (n < 3 → (read_all_sections_go 0 [[0, 0, 0, 0, 0, 0, 1, 1], [0, 0, 0, 0, 0, 0, 0, 1], [9, 9, 9, 9, 9, 9, 9, 9]] []).length = 2)
          ∧ ∀ m, m < n → (firstOccSec (acceptedSections 0 (List.take m [[0, 0, 0, 0, 0, 0, 1, 1], [0, 0, 0, 0, 0, 0, 0, 1], [9, 9, 9, 9, 9, 9, 9, 9]])) []).length ≤ 1)
        ∧ ∀ out, read_all_sections 0 [[0, 0, 0, 0, 0, 0, 1, 1], [0, 0, 0, 0, 0, 0, 0, 1], [9, 9, 9, 9, 9, 9, 9, 9]] = .ok out →
            out.Pairwise fun a b => byteAt a 6 < byteAt b 6) :=
  ⟨by decide,
    c1_read_all_sections 0 1
      [[0, 0, 0, 0, 0, 0, 1, 1], [0, 0, 0, 0, 0, 0, 0, 1], [9, 9, 9, 9, 9, 9, 9, 9]]
      (by decide)⟩

/-- De-duplication key of an event: `(service_id, event_id)`. -/
def evKey (e : EitEvent) : Nat × Nat := (e.service_id, e.event_id)

/-- The events a section contributes in `read_events`: the parsed events
on success, nothing on a parse error (errors are swallowed). -/
def sectionEvents (buf : List Nat) : List EitEvent :=
  match parse_eit_section buf with
  | .ok p => p.2
  | .error _ => []

/-- Section de-duplication key of `read_events`:
`(service_id, table_id, section_number)` read from the raw buffer. -/
def sectionKey (buf : List Nat) : Nat × Nat × Nat :=
  (u16be (byteAt buf 3) (byteAt buf 4), byteAt buf 0, byteAt buf 6)

/-- The inner loop of `read_events` over one section's events: push each
event whose `(service_id, event_id)` was not seen yet. -/
def addEvents : List EitEvent → List (Nat × Nat) → List EitEvent →
    List (Nat × Nat) × List EitEvent
  | [], seen, acc => (seen, acc)
  | e :: es, seen, acc =>
    if evKey e ∈ seen then addEvents es seen acc
    else addEvents es (evKey e :: seen) (acc ++ [e])

/-- The collection loop of `EitReader::read_events` (src/eit.rs) over the
sequence of demux reads: drop reads under 18 bytes or with a table_id
other than 0x4E / 0x50-0x5F, skip sections already seen, parse, and
de-duplicate events by `(service_id, event_id)`. -/
def read_events_go : List (List Nat) → List (Nat × Nat × Nat) →
    List (Nat × Nat) → List EitEvent → List EitEvent
  | [], _, _, acc => acc
  | buf :: rest, seenS, seenE, acc =>
    if buf.length < 18 then read_events_go rest seenS seenE acc
    else if ¬(byteAt buf 0 = 0x4E ∨ (0x50 ≤ byteAt buf 0 ∧ byteAt buf 0 ≤ 0x5F)) then
      read_events_go rest seenS seenE acc
    else if sectionKey buf ∈ seenS then read_events_go rest seenS seenE acc
    else
      let p := addEvents (sectionEvents buf) seenE acc
      read_events_go rest (sectionKey buf :: seenS) p.1 p.2

/-- Sort order of `read_events`: non-decreasing `start_time`. -/
def startLE (a b : EitEvent) : Prop := a.start_time ≤ b.start_time

instance : DecidableRel startLE := fun a b =>
  inferInstanceAs (Decidable (a.start_time ≤ b.start_time))

instance : IsTotal EitEvent startLE := ⟨fun a b => Int.le_total a.start_time b.start_time⟩

instance : IsTrans EitEvent startLE := ⟨fun _ _ _ h1 h2 => Int.le_trans h1 h2⟩

/-- `EitReader::read_events` from src/eit.rs, as a function of the
sequence of demux reads: collect with both levels of de-duplication,
then sort by `start_time` (Rust `sort_by_key`, a stable sort). -/
def read_events (reads : List (List Nat)) : List EitEvent :=
  (read_events_go reads [] [] []).insertionSort startLE

/-- The event stream as encountered: all events of accepted, not previously
seen sections, in arrival order, with no event-level
de-duplication. -/
def collectRaw : List (List Nat) → List (Nat × Nat × Nat) → List EitEvent
  | [], _ => []
  | buf :: rest, seenS =>
    if buf.length < 18 then collectRaw rest seenS
    else if ¬(byteAt buf 0 = 0x4E ∨ (0x50 ≤ byteAt buf 0 ∧ byteAt buf 0 ≤ 0x5F)) then
      collectRaw rest seenS
    else if sectionKey buf ∈ seenS then collectRaw rest seenS
    else sectionEvents buf ++ collectRaw rest (sectionKey buf :: seenS)

/-- Keys recorded after de-duplicating a stream of events. -/
def seenAfter : List EitEvent → List (Nat × Nat) → List (Nat × Nat)
  | [], seen => seen
  | e :: es, seen =>
    if evKey e ∈ seen then seenAfter es seen else seenAfter es (evKey e :: seen)

/-- Modelled from the spec sentence "de-duplicate events by
`(service_id, event_id)`": keep the first event of each key not already
in `seen`.  Used as the specification side of C3. -/
def firstOccBy : List EitEvent → List (Nat × Nat) → List EitEvent
  | [], _ => []
  | e :: es, seen =>
    if evKey e ∈ seen then firstOccBy es seen
    else e :: firstOccBy es (evKey e :: seen)

theorem addEvents_eq (es : List EitEvent) :
    ∀ (seen : List (Nat × Nat)) (acc : List EitEvent),
      addEvents es seen acc = (seenAfter es seen, acc ++ firstOccBy es seen) := by
  induction es with
  | nil => intro seen acc; simp [addEvents, seenAfter, firstOccBy]
  | cons e es ih =>
    intro seen acc
    by_cases hk : evKey e ∈ seen
    · rw [addEvents, if_pos hk, seenAfter, if_pos hk, firstOccBy, if_pos hk]
      exact ih seen acc
    · rw [addEvents, if_neg hk, seenAfter, if_neg hk, firstOccBy, if_neg hk]
      rw [ih (evKey e :: seen) (acc ++ [e])]
      simp

theorem firstOccBy_append (xs : List EitEvent) :
    ∀ (ys : List EitEvent) (seen : List (Nat × Nat)),
      firstOccBy (xs ++ ys) seen
        = firstOccBy xs seen ++ firstOccBy ys (seenAfter xs seen) := by
  induction xs with
  | nil => intro ys seen; simp [firstOccBy, seenAfter]
  | cons x xs ih =>
    intro ys seen
    by_cases hk : evKey x ∈ seen
    · rw [List.cons_append, firstOccBy, if_pos hk, firstOccBy, if_pos hk,
        seenAfter, if_pos hk]
      exact ih ys seen
    · rw [List.cons_append, firstOccBy, if_neg hk, firstOccBy, if_neg hk,
        seenAfter, if_neg hk, ih ys (evKey x :: seen)]
      simp

theorem read_events_go_eq (reads : List (List Nat)) :
    ∀ (seenS : List (Nat × Nat × Nat)) (seenE : List (Nat × Nat)) (acc : List EitEvent),
      read_events_go reads seenS seenE acc
        = acc ++ firstOccBy (collectRaw reads seenS) seenE := by
  induction reads with
  | nil => intro seenS seenE acc; simp [read_events_go, collectRaw, firstOccBy]
  | cons buf rest ih =>
    intro seenS seenE acc
    by_cases h18 : buf.length < 18
    · rw [read_events_go, if_pos h18, collectRaw, if_pos h18]
      exact ih seenS seenE acc
    · by_cases htid : ¬(byteAt buf 0 = 0x4E ∨ (0x50 ≤ byteAt buf 0 ∧ byteAt buf 0 ≤ 0x5F))
      · rw [read_events_go, if_neg h18, if_pos htid, collectRaw, if_neg h18, if_pos htid]
        exact ih seenS seenE acc
      · by_cases hseen : sectionKey buf ∈ seenS
        · rw [read_events_go, if_neg h18, if_neg htid, if_pos hseen,
            collectRaw, if_neg h18, if_neg htid, if_pos hseen]
          exact ih seenS seenE acc
        · rw [read_events_go, if_neg h18, if_neg htid, if_neg hseen,
            collectRaw, if_neg h18, if_neg htid, if_neg hseen]
          dsimp only
          rw [addEvents_eq, ih (sectionKey buf :: seenS) (seenAfter (sectionEvents buf) seenE)
              (acc ++ firstOccBy (sectionEvents buf) seenE)]
          rw [firstOccBy_append]
          simp [List.append_assoc]

theorem firstOccBy_inv (es : List EitEvent) :
    ∀ seen : List (Nat × Nat),
      (∀ e ∈ firstOccBy es seen, evKey e ∉ seen)
        ∧ (firstOccBy es seen).Pairwise fun a b => evKey a ≠ evKey b := by
  induction es with
  | nil => intro seen; simp [firstOccBy]
  | cons e es ih =>
    intro seen
    by_cases hk : evKey e ∈ seen
    · rw [firstOccBy, if_pos hk]
      exact ih seen
    · rw [firstOccBy, if_neg hk]
      obtain ⟨hmem, hpw⟩ := ih (evKey e :: seen)
      refine ⟨?_, ?_⟩
      · intro x hx
        rcases List.mem_cons.mp hx with rfl | hx2
        · exact hk
        · exact fun hc => hmem x hx2 (List.mem_cons_of_mem _ hc)
      · refine List.pairwise_cons.mpr ⟨?_, hpw⟩
        intro b hb hcon
        exact hmem b hb (by rw [← hcon]; exact List.mem_cons_self _ _)

/-- C3: the event list returned by read_events is sorted non-decreasing
by start_time, contains at most one event per (service_id, event_id)
pair, and is a permutation of the first-occurrence-per-key
de-duplication of the encountered event stream (so the first event
encountered with a given key is the one kept). -/
theorem c3_read_events (reads : List (List Nat)) :
    (read_events reads).Sorted startLE
      ∧ ((read_events reads).Pairwise fun a b =>
          (a.service_id, a.event_id) ≠ (b.service_id, b.event_id))
      ∧ List.Perm (read_events reads) (firstOccBy (collectRaw reads []) []) := by
  have hbase : read_events_go reads [] [] [] = firstOccBy (collectRaw reads []) [] := by
    rw [read_events_go_eq]
    simp
  have hperm : List.Perm (read_events reads) (firstOccBy (collectRaw reads []) []) := by
    rw [read_events, hbase]
    exact List.perm_insertionSort startLE _
  refine ⟨List.sorted_insertionSort startLE _, ?_, hperm⟩
  have hpw := (firstOccBy_inv (collectRaw reads []) []).2
  have hsymm : ∀ {a b : EitEvent}, evKey a ≠ evKey b → evKey b ≠ evKey a :=
    fun h => fun hc => h hc.symm
  exact (hperm.pairwise_iff fun hab => hsymm hab).2 hpw

-- Evaluation check: two copies of the same section (same section key)
-- yield the events only once, sorted by start_time.
example :
    read_events [c2buf, c2buf] = [] := by decide

/-- `Channel` from src/channel.rs. -/
structure Channel where
  name : List Char
  frequency : Nat
  inversion : List Char
  bandwidth : List Char
  fec_hp : List Char
  fec_lp : List Char
  modulation : List Char
  transmission_mode : List Char
  guard_interval : List Char
  hierarchy : List Char
  video_pid : Nat
  audio_pid : Nat
  service_id : Nat
deriving DecidableEq, Repr

/-- Rust `line.split(':')`: split a line into fields at every colon
(an empty line yields one empty field, as in Rust). -/
def splitColon : List Char → List (List Char)
  | [] => [[]]
  | c :: rest =>
    if c = ':' then [] :: splitColon rest
    else
      match splitColon rest with
      | f :: fs => (c :: f) :: fs
      | [] => [[c]]

/-- Rust `str::trim`. -/
def trimChars (l : List Char) : List Char :=
  ((l.dropWhile Char.isWhitespace).reverse.dropWhile Char.isWhitespace).reverse

/-- Rust `str::parse::<u16>` (resp. `u64` with the larger bound):
decimal digits only, within range.  (The rarely used leading `+` sign of
the Rust parser is not modeled.) -/
def parseNat (bound : Nat) (s : List Char) : Option Nat :=
  if s ≠ [] ∧ s.all Char.isDigit then
    let n := s.foldl (fun acc c => acc * 10 + (c.toNat - 48)) 0
    if n < bound then some n else none
  else none

/-- One pass of the line loop of `parse_channels_conf` (src/channel.rs):
skip blank and `#` lines, require exactly 13 colon-separated fields,
parse frequency and the three ids, build the `Channel`.  Error strings
are abbreviated (the source interpolates line numbers into them). -/
def parse_channels_go : List (List Char) → List Channel → Except String (List Channel)
  | [], acc => .ok acc
  | l :: rest, acc =>
    let line := trimChars l
    if line = [] then parse_channels_go rest acc
    else if line.head? = some '#' then parse_channels_go rest acc
    else
      let fields := splitColon line
      if fields.length ≠ 13 then .error "expected 13 fields"
      else
        match parseNat (2 ^ 64) (fields.getD 1 []), parseNat 65536 (fields.getD 10 []),
            parseNat 65536 (fields.getD 11 []), parseNat 65536 (fields.getD 12 []) with
        | some freq, some vp, some ap, some sid =>
            parse_channels_go rest (acc ++ [⟨fields.getD 0 [], freq, fields.getD 2 [],
              fields.getD 3 [], fields.getD 4 [], fields.getD 5 [], fields.getD 6 [],
              fields.getD 7 [], fields.getD 8 [], fields.getD 9 [], vp, ap, sid⟩])
        | _, _, _, _ => .error "invalid integer field"

/-- `parse_channels_conf` from src/channel.rs, as a function of the
file's lines. -/
def parse_channels_conf (lines : List (List Char)) : Except String (List Channel) :=
  parse_channels_go lines []

/-- `PatEntry` from src/scan.rs. -/
structure PatEntry where
  service_id : Nat
  pmt_pid : Nat
deriving DecidableEq, Repr

/-- The entry loop of `parse_pat_sections` (src/scan.rs): 4-byte entries
from offset 8 up to `entries_end`; entries with program_number 0 (the
NIT pointer) are skipped.  `pos` advances by 4, so fuel `entries_end + 1`
never runs out. -/
def patLoop : Nat → List Nat → Nat → Nat → List PatEntry
  | 0, _, _, _ => []
  | fuel + 1, data, entries_end, pos =>
    if pos + 4 ≤ entries_end then
      let program_number := u16be (byteAt data pos) (byteAt data (pos + 1))
      let pid := ((byteAt data (pos + 2) &&& 0x1F) <<< 8) ||| byteAt data (pos + 3)
      let tail := patLoop fuel data entries_end (pos + 4)
      if program_number ≠ 0 then ⟨program_number, pid⟩ :: tail else tail
    else []

/-- The per-section body of `parse_pat_sections` (src/scan.rs): skip
sections shorter than 12 bytes or truncated against their
section_length; otherwise walk the entries. -/
def parse_pat_section (data : List Nat) : List PatEntry :=
  if data.length < 12 then []
  else
    let section_length := ((byteAt data 1 &&& 0x0F) <<< 8) ||| byteAt data 2
    let section_end := 3 + section_length
    if data.length < section_end then []
    else patLoop (section_end - 4 + 1) data (section_end - 4) 8

/-- `parse_pat_sections` from src/scan.rs: concatenate entries across
sections; fail when no service was found. -/
def parse_pat_sections (sections : List (List Nat)) : Except String (List PatEntry) :=
  let entries := sections.foldr (fun s acc => parse_pat_section s ++ acc) []
  if entries.isEmpty then .error "PAT: no services found" else .ok entries

/-- `PmtInfo` from src/scan.rs. -/
structure PmtInfo where
  video_pid : Nat
  audio_pid : Nat
deriving DecidableEq, Repr

/-- The channel-building join of `scan_frequency` (src/scan.rs): one
Channel per PAT entry, name from the SDT list (or "Service <id>"),
tuning parameters from the base channel, PIDs from the PMT read (device
reads are abstracted as the `pmtFor` oracle). -/
def scan_channels (base : Channel) (sdt : List (Nat × List Char))
    (pmtFor : PatEntry → PmtInfo) (entries : List PatEntry) : List Channel :=
  entries.map fun pe =>
    let name := match sdt.find? fun p => p.1 == pe.service_id with
      | some p => p.2
      | none => "Service ".toList ++ Nat.toDigits 10 pe.service_id
    ⟨name, base.frequency, base.inversion, base.bandwidth, base.fec_hp, base.fec_lp,
      base.modulation, base.transmission_mode, base.guard_interval, base.hierarchy,
      (pmtFor pe).video_pid, (pmtFor pe).audio_pid, pe.service_id⟩

-- Evaluation checks against the unit tests of src/channel.rs.
example :
    parse_channels_conf
      ["CH1:557000000:INVERSION_AUTO:BANDWIDTH_6_MHZ:FEC_AUTO:FEC_AUTO:QAM_64:TRANSMISSION_MODE_8K:GUARD_INTERVAL_1_8:HIERARCHY_NONE:100:101:1".toList]
      = .ok [⟨"CH1".toList, 557000000, "INVERSION_AUTO".toList, "BANDWIDTH_6_MHZ".toList,
          "FEC_AUTO".toList, "FEC_AUTO".toList, "QAM_64".toList,
          "TRANSMISSION_MODE_8K".toList, "GUARD_INTERVAL_1_8".toList,
          "HIERARCHY_NONE".toList, 100, 101, 1⟩] := by decide
example :
    isOkE (parse_channels_conf ["CH1:557000000:INVERSION_AUTO".toList]) = false := by decide
example :
    isOkE (parse_channels_conf ["CH1:notanumber:a:b:c:d:e:f:g:h:100:101:1".toList]) = false := by
  decide
example :
    parse_channels_conf ["# comment".toList, "".toList, "   ".toList] = .ok [] := by decide

/-- C8 counterexample: a well-formed channel line whose last field is 0
parses successfully into a Channel with service_id = 0; parse_channels_conf
enforces no nonzero-service_id invariant. -/
theorem c8_counterexample :
    parse_channels_conf ["X:1:a:b:c:d:e:f:g:h:1:2:0".toList]
        = .ok [⟨"X".toList, 1, "a".toList, "b".toList, "c".toList, "d".toList,
            "e".toList, "f".toList, "g".toList, "h".toList, 1, 2, 0⟩]
      ∧ (⟨"X".toList, 1, "a".toList, "b".toList, "c".toList, "d".toList,
            "e".toList, "f".toList, "g".toList, "h".toList, 1, 2, 0⟩ : Channel).service_id
          = 0 := by
  constructor
  · decide
  · rfl

theorem patLoop_nonzero (fuel : Nat) :
    ∀ (data : List Nat) (entries_end pos : Nat) (e : PatEntry),
      e ∈ patLoop fuel data entries_end pos → e.service_id ≠ 0 := by
  induction fuel with
  | zero => intro data ee pos e he; simp [patLoop] at he
  | succ fuel ih =>
    intro data ee pos e he
    rw [patLoop] at he
    by_cases hle : pos + 4 ≤ ee
    · rw [if_pos hle] at he
      dsimp only at he
      by_cases hz : u16be (byteAt data pos) (byteAt data (pos + 1)) ≠ 0
      · rw [if_pos hz] at he
        rcases List.mem_cons.mp he with rfl | htail
        · exact hz
        · exact ih data ee (pos + 4) e htail
      · rw [if_neg hz] at he
        exact ih data ee (pos + 4) e he
    · rw [if_neg hle] at he
      simp at he

/-- C8 amended: every PatEntry produced by parse_pat_sections has a
nonzero service_id (program_number 0 entries are skipped), and hence
every Channel that scan_frequency builds from those PAT entries has
service_id different from 0; parse_channels_conf, however, performs no such
check and returns whatever service_id the line carries (see the
counterexample). -/
theorem c8_nonzero_service_id (sections : List (List Nat)) (entries : List PatEntry)
    (hp : parse_pat_sections sections = .ok entries) :
    (∀ e ∈ entries, e.service_id ≠ 0)
      ∧ ∀ (base : Channel) (sdt : List (Nat × List Char)) (pmtFor : PatEntry → PmtInfo),
          ∀ c ∈ scan_channels base sdt pmtFor entries, c.service_id ≠ 0 := by
  have hfold : ∀ (ss : List (List Nat)) (e : PatEntry),
      e ∈ ss.foldr (fun s acc => parse_pat_section s ++ acc) [] → e.service_id ≠ 0 := by
    intro ss
    induction ss with
    | nil => intro e he; simp at he
    | cons s ss ihs =>
      intro e he
      rw [List.foldr_cons] at he
      rcases List.mem_append.mp he with h1 | h2
      · rw [parse_pat_section] at h1
        by_cases h12 : s.length < 12
        · rw [if_pos h12] at h1; simp at h1
        · rw [if_neg h12] at h1
          dsimp only at h1
          by_cases htr : s.length < 3 + ((byteAt s 1 &&& 0x0F) <<< 8 ||| byteAt s 2)
          · rw [if_pos htr] at h1; simp at h1
          · rw [if_neg htr] at h1
            exact patLoop_nonzero _ s _ 8 e h1
      · exact ihs e h2
  have hent : ∀ e ∈ entries, e.service_id ≠ 0 := by
    rw [parse_pat_sections] at hp
    by_cases hemp : (sections.foldr (fun s acc => parse_pat_section s ++ acc) []).isEmpty
    · rw [if_pos hemp] at hp
      exact Except.noConfusion hp
    · rw [if_neg hemp] at hp
      cases hp
      exact fun e he => hfold sections e he
  refine ⟨hent, ?_⟩
  intro base sdt pmtFor c hc
  obtain ⟨pe, hpe, hceq⟩ := List.mem_map.mp hc
  have : c.service_id = pe.service_id := by rw [← hceq]
  rw [this]
  exact hent pe hpe

/-- A PAT section with the single entry (program_number 1, PMT PID 0x100). -/
def c8patSection : List Nat :=
  [0x00, 0x00, 13, 0, 0, 0, 0, 0, 0x00, 0x01, 0xE1, 0x00, 0, 0, 0, 0]

/-- Witness for C8 amended: on c8patSection the single PAT entry and the
single scanned channel both have nonzero service_id. -/
theorem c8_nonzero_service_id_witness :
    (⟨1, 256⟩ : PatEntry).service_id ≠ 0
      ∧ (⟨"TV".toList, 0, [], [], [], [], [], [], [], [], 7, 8, 1⟩ : Channel).service_id ≠ 0 :=
  ⟨(c8_nonzero_service_id [c8patSection] [⟨1, 256⟩] (by decide)).1 ⟨1, 256⟩ (by decide),
    (c8_nonzero_service_id [c8patSection] [⟨1, 256⟩] (by decide)).2
      ⟨[], 0, [], [], [], [], [], [], [], [], 0, 0, 0⟩ [(1, "TV".toList)] (fun _ => ⟨7, 8⟩)
      ⟨"TV".toList, 0, [], [], [], [], [], [], [], [], 7, 8, 1⟩ (by decide)⟩

end Epgrab
